import Mathlib

/-!
Verification of the GICS Python IPC client (`src/clients/python/gics_client.py`)
against its natural-language specification.

The embedding models the POSIX branch of the client (`os.name != 'nt'`): the
Unix-socket connection pool, the newline-delimited framing loop, the retry
controller in `GICSClient._call`, the envelope unwrapping in
`GICSClient._unwrap_result` and the per-method field extractors, the request-id
counter, and the token resolution in `GICSClient._get_token`.

External effects (the socket, the filesystem, `json.loads`) are modelled as
explicit oracles passed in as parameters; the control flow acting on them is a
direct transcription of the Python source.
-/

namespace GICS

/-- A Python/JSON value, as produced by `json.loads`.  JSON objects decode to
Python dicts with unique keys; we represent a dict as an association list and
look keys up by first match. -/
inductive PyVal where
  | null
  | bool (b : Bool)
  | int (n : Int)
  | str (s : String)
  | list (xs : List PyVal)
  | dict (entries : List (String × PyVal))

/-- Python truthiness (`if v:`): `None`, `False`, `0`, `""`, `[]` and an empty
dict are falsy, everything else is truthy. -/
def PyVal.truthy : PyVal → Bool
  | .null => false
  | .bool b => b
  | .int n => n != 0
  | .str s => s != ""
  | .list xs => !xs.isEmpty
  | .dict es => !es.isEmpty

/-- First-match key lookup in a dict representation (Python dict keys are
unique, so first match is the match). -/
def lookupKey : List (String × PyVal) → String → Option PyVal
  | [], _ => none
  | (k, v) :: rest, key => if k = key then some v else lookupKey rest key

/-- Exceptions that the unwrapping path can raise. -/
inductive PyExc where
  | gicsError (code message : PyVal)
  | attributeError

/-- Python `v.get(key, default)`: succeeds on a dict, raises `AttributeError`
on any non-dict value (in particular on `None`). -/
def pyGet (v : PyVal) (key : String) (default : PyVal) : Except PyExc PyVal :=
  match v with
  | .dict es => .ok ((lookupKey es key).getD default)
  | _ => .error .attributeError

/-- Embedding of `GICSClient._unwrap_result`:
`if response.get('error'):` raise `RuntimeError` with the code and message
taken from the error object (defaults `-1` and `'Unknown error'`); otherwise
return `response.get('result')`. -/
def unwrap_result (response : PyVal) : Except PyExc PyVal := do
  let err ← pyGet response "error" .null
  if err.truthy then
    let code ← pyGet err "code" (.int (-1))
    let message ← pyGet err "message" (.str "Unknown error")
    Except.error (.gicsError code message)
  else
    pyGet response "result" .null

/-- Embedding of `GICSClient.put` after `_call` returned `resp`:
`self._unwrap_result(resp).get('ok', False)`. -/
def put_unwrap (resp : PyVal) : Except PyExc PyVal := do
  let r ← unwrap_result resp
  pyGet r "ok" (.bool false)

/-- Embedding of the result handling of `GICSClient.delete`:
`self._unwrap_result(resp).get('ok', False)`. -/
def delete_unwrap (resp : PyVal) : Except PyExc PyVal := do
  let r ← unwrap_result resp
  pyGet r "ok" (.bool false)

/-- Embedding of the result handling of `GICSClient.scan`:
`self._unwrap_result(resp).get('items', [])`. -/
def scan_unwrap (resp : PyVal) : Except PyExc PyVal := do
  let r ← unwrap_result resp
  pyGet r "items" (.list [])

/-- Embedding of the result handling of `GICSClient.report_outcome`:
`self._unwrap_result(resp).get('ok', False)`. -/
def report_outcome_unwrap (resp : PyVal) : Except PyExc PyVal := do
  let r ← unwrap_result resp
  pyGet r "ok" (.bool false)

/-- Embedding of the result handling of `GICSClient.subscribe`:
`result = self._unwrap_result(resp)` then `result.get("subscriptionId")`
(Python `.get` with one argument defaults to `None`). -/
def subscribe_unwrap (resp : PyVal) : Except PyExc PyVal := do
  let r ← unwrap_result resp
  pyGet r "subscriptionId" .null

/-- Embedding of the result handling of `GICSClient.unsubscribe`:
`self._unwrap_result(resp).get("ok", False)`. -/
def unsubscribe_unwrap (resp : PyVal) : Except PyExc PyVal := do
  let r ← unwrap_result resp
  pyGet r "ok" (.bool false)

/-! ## Connection pool (`_open_unix_socket` / `_acquire_unix_socket` /
`_release_unix_socket` / `close`)

Connections are identified by an id; the pool state tracks the idle list
(`self._pool`) and, for accounting, the set of ids that have been closed. -/

/-- A connection identity (a socket object in the source). -/
abbrev Conn := Nat

/-- The mutable pool state of one client: `self._pool` (idle connections, in
list order as in the Python list) together with a ledger of closed
connections. -/
structure PoolState where
  pool : List Conn
  closed : List Conn
deriving DecidableEq, Repr

/-- Embedding of `GICSClient.__init__` coercion of the pool capacity:
`self._pool_size = max(1, int(pool_size))`. -/
def init_pool_size (pool_size : Int) : Int := max 1 pool_size

/-- Embedding of `GICSClient._acquire_unix_socket`: pop the last idle
connection if the pool is nonempty (`self._pool.pop()`), otherwise open a
fresh one (`self._open_unix_socket()`); `fresh` is the connection the open
would create.  Returns the acquired connection and the new state. -/
def acquire_unix_socket (st : PoolState) (fresh : Conn) : Conn × PoolState :=
  match st.pool.getLast? with
  | some c => (c, { st with pool := st.pool.dropLast })
  | none => (fresh, st)

/-- Embedding of `GICSClient._release_unix_socket`: a `None` socket is
ignored; an unhealthy socket is closed; a healthy socket is appended to the
idle pool when `len(self._pool) < self._pool_size`, else closed. -/
def release_unix_socket (st : PoolState) (s : Option Conn) (healthy : Bool)
    (pool_size : Nat) : PoolState :=
  match s with
  | none => st
  | some c =>
    if !healthy then { st with closed := c :: st.closed }
    else if st.pool.length < pool_size then { st with pool := st.pool ++ [c] }
    else { st with closed := c :: st.closed }

/-! ## Framing: the receive loop of `_call`

The daemon side of one attempt is an oracle: the list of successive outcomes
of `s.recv(4096)` on the acquired connection.  A missing further event stands
for a read that never completes within the socket timeout, which raises an
OS-level timeout error. -/

/-- The outcome of one `s.recv(4096)` call: a chunk of bytes (the empty chunk
means the peer closed the stream) or an OS-level error (for example a
timeout). -/
inductive RecvEvent where
  | chunk (bs : List Nat)
  | oserror
deriving DecidableEq, Repr

/-- Errors arising in one attempt of `_call`, by the Python exception
class that carries them. -/
inductive PyErr where
  /-- `FileNotFoundError` / `ConnectionRefusedError` / `OSError` from
  `_open_unix_socket` (socket creation or `connect`). -/
  | connectError
  /-- `OSError` / `TimeoutError` from `sendall` or `recv`. -/
  | osError
  /-- `ConnectionResetError("Daemon closed IPC socket")`, raised by `_call`
  when `recv` returns an empty chunk. -/
  | connectionReset
  /-- `json.JSONDecodeError` from `json.loads`. -/
  | jsonDecodeError
  /-- `UnicodeDecodeError` from `response_line.decode('utf-8')`. -/
  | unicodeDecodeError
deriving DecidableEq, Repr

/-- The transient transport errors: exactly the classes caught by the outer
`except (FileNotFoundError, ConnectionRefusedError, OSError,
json.JSONDecodeError)` of `_call` (`ConnectionResetError` and `TimeoutError`
are `OSError` subclasses; `UnicodeDecodeError` is not caught). -/
def PyErr.transient : PyErr → Bool
  | .connectError => true
  | .osError => true
  | .connectionReset => true
  | .jsonDecodeError => true
  | .unicodeDecodeError => false

/-- Embedding of the read loop of `_call`:
accumulate `recv` chunks into `buffer` until `b'\n' in buffer`; an empty
chunk raises `ConnectionResetError`; a `recv` error (or a read that never
returns within the timeout, modelled by the oracle running out) raises an
OS error.  Returns the final buffer on success.  Bytes are numbers; the
newline byte is 10. -/
def recvLoop : List RecvEvent → List Nat → Except PyErr (List Nat)
  | [], _ => .error .osError
  | .oserror :: _, _ => .error .osError
  | .chunk bs :: rest, buffer =>
    if bs.isEmpty then .error .connectionReset
    else
      let buffer := buffer ++ bs
      if 10 ∈ buffer then .ok buffer else recvLoop rest buffer

/-- The outcome of `json.loads(line.decode('utf-8'))` on one frame, supplied
as an oracle for the external `json` library: a decoded value, a JSON parse
failure, or a UTF-8 decode failure. -/
inductive DecodeResult where
  | ok (v : PyVal)
  | jsonError
  | unicodeError

/-! ## One attempt of `_call` (POSIX branch) -/

/-- The environment of one attempt: whether `_open_unix_socket` succeeds on a
pool miss, the fresh connection it would return, whether `sendall` succeeds,
and the `recv` oracle. -/
structure AttemptEnv where
  acquireOk : Bool
  fresh : Conn
  sendOk : Bool
  recvs : List RecvEvent

/-- The textual outcome of one attempt, before the retry policy is applied:
a returned decoded value, an exception caught by the outer `except` of
`_call` (transient), or an exception that escapes `_call` uncaught. -/
inductive AttemptRes where
  | success (v : PyVal)
  | transient (e : PyErr)
  | fatal (e : PyErr)

/-- Full record of one attempt: its result, the connection acquired (if
acquisition succeeded), the `healthy` flag passed to `_release_unix_socket`
for that connection, and the resulting pool state. -/
structure AttemptOut where
  res : AttemptRes
  conn : Option Conn
  releasedHealthy : Option Bool
  st : PoolState

/-- Embedding of one iteration body of the retry loop of `_call` (the POSIX
branch): acquire a connection (pool pop or fresh open), `sendall` the
payload, run the receive loop, split the buffer at the first newline, decode
the line; `healthy` is set to `False` by the inner `except` on any transport
or JSON failure and the connection is always released in the `finally`.  The
`loads` parameter is the `json.loads` oracle. -/
def runAttempt (loads : List Nat → DecodeResult) (pool_size : Nat)
    (env : AttemptEnv) (st : PoolState) : AttemptOut :=
  if st.pool.isEmpty && !env.acquireOk then
    -- `_open_unix_socket` raised; `s` is still `None`, so the `finally`
    -- release is a no-op and the outer `except` catches the `OSError`.
    ⟨.transient .connectError, none, none, st⟩
  else
    let s := (acquire_unix_socket st env.fresh).1
    let st₁ := (acquire_unix_socket st env.fresh).2
    if !env.sendOk then
      ⟨.transient .osError, some s, some false,
        release_unix_socket st₁ (some s) false pool_size⟩
    else
      match recvLoop env.recvs [] with
      | .error e =>
        ⟨.transient e, some s, some false,
          release_unix_socket st₁ (some s) false pool_size⟩
      | .ok buffer =>
        -- `response_line = buffer.split(b'\n')[0]`
        let line := buffer.takeWhile (· ≠ 10)
        match loads line with
        | .ok v =>
          ⟨.success v, some s, some true,
            release_unix_socket st₁ (some s) true pool_size⟩
        | .jsonError =>
          ⟨.transient .jsonDecodeError, some s, some false,
            release_unix_socket st₁ (some s) false pool_size⟩
        | .unicodeError =>
          -- `UnicodeDecodeError` is raised before `healthy` is touched and
          -- is caught by neither `except` clause: the connection is
          -- released healthy and the exception escapes `_call`.
          ⟨.fatal .unicodeDecodeError, some s, some true,
            release_unix_socket st₁ (some s) true pool_size⟩

/-! ## The retry loop of `_call` -/

/-- The outcome of a whole `_call`: the decoded response returned, or the
exception raised to the caller. -/
inductive CallOutcome where
  | returned (v : PyVal)
  | raised (e : PyErr)

/-- Trace of one `_call`: its outcome, the number of attempts performed, the
durations of the `time.sleep` calls in order, the `last_error` history (one
entry per transiently failed attempt), the per-attempt release records
(connection and `healthy` flag), and the final pool state. -/
structure CallResult (δ : Type) where
  outcome : CallOutcome
  attempts : Nat
  sleeps : List δ
  errors : List PyErr
  releases : List (Conn × Bool)
  st : PoolState

/-- The release record of one attempt as a list (empty when no connection was
acquired). -/
def AttemptOut.releaseRec (a : AttemptOut) : List (Conn × Bool) :=
  match a.conn, a.releasedHealthy with
  | some c, some h => [(c, h)]
  | _, _ => []

/-- Embedding of the retry loop of `_call` from attempt index `attempt` with
`k = max_retries - attempt` remaining retries: run one attempt; on success
return its value; on a transient error, if `attempt < max_retries`
(equivalently `k > 0`) sleep `retry_delay` and continue with the next
attempt, else re-raise; an uncaught exception propagates immediately.  The
environment `envs` gives each attempt index its transport behaviour. -/
def callAux (loads : List Nat → DecodeResult) (pool_size : Nat) {δ : Type}
    (retry_delay : δ) (envs : Nat → AttemptEnv) :
    Nat → Nat → PoolState → CallResult δ
  | 0, attempt, st =>
    -- final attempt: `attempt == max_retries`, so a transient error is
    -- re-raised rather than retried.
    let a := runAttempt loads pool_size (envs attempt) st
    match a.res with
    | .success v => ⟨.returned v, 1, [], [], a.releaseRec, a.st⟩
    | .transient e => ⟨.raised e, 1, [], [e], a.releaseRec, a.st⟩
    | .fatal e => ⟨.raised e, 1, [], [], a.releaseRec, a.st⟩
  | k + 1, attempt, st =>
    let a := runAttempt loads pool_size (envs attempt) st
    match a.res with
    | .success v => ⟨.returned v, 1, [], [], a.releaseRec, a.st⟩
    | .fatal e => ⟨.raised e, 1, [], [], a.releaseRec, a.st⟩
    | .transient e =>
      let r := callAux loads pool_size retry_delay envs k (attempt + 1) a.st
      ⟨r.outcome, r.attempts + 1, retry_delay :: r.sleeps, e :: r.errors,
        a.releaseRec ++ r.releases, r.st⟩

/-- Embedding of the retry loop of `_call` (POSIX branch):
`for attempt in range(self._max_retries + 1)`, starting from attempt 0. -/
def call (loads : List Nat → DecodeResult) (pool_size : Nat) {δ : Type}
    (retry_delay : δ) (max_retries : Nat) (envs : Nat → AttemptEnv)
    (st : PoolState) : CallResult δ :=
  callAux loads pool_size retry_delay envs max_retries 0 st

/-! ## Correlation ids (`_next_request_id`)

The counter `self._request_id` starts at 1 (`__init__`); `_next_request_id`
reads it and increments it while holding `self._request_id_lock`.  The lock
makes each read-increment atomic, so any interleaving of concurrent callers
is some sequential order of atomic `next_request_id` steps, which is what the
iteration below models. -/

/-- Embedding of `GICSClient._next_request_id`: return the current counter
and advance it by one (performed atomically under the id lock). -/
def next_request_id (rid : Nat) : Nat × Nat := (rid, rid + 1)

/-- The ids assigned to `n` successive calls when the counter currently
holds `rid`. -/
def assignedIds : Nat → Nat → List Nat
  | _, 0 => []
  | rid, n + 1 => (next_request_id rid).1 :: assignedIds (next_request_id rid).2 n

/-- Embedding of the request object built by `_call`: `jsonrpc` is the fixed
string `2.0`, `id` comes from `_next_request_id`, `token` from
`_get_token`. -/
structure Request where
  jsonrpc : String
  method : String
  params : List (String × PyVal)
  id : Nat
  token : Option String

/-- The request dict of `_call` for a given method, params, id and token. -/
def build_request (method : String) (params : List (String × PyVal))
    (rid : Nat) (token : Option String) : Request :=
  ⟨"2.0", method, params, rid, token⟩

/-! ## Token resolution (`_get_token`) -/

/-- The filesystem oracle for token probing: `os.path.exists` and the
contents `open(p).read()` would return. -/
structure FS where
  pathExists : String → Bool
  read : String → String

/-- Python truthiness of `self._token` (a string or `None`): truthy exactly
when it is a non-empty string. -/
def optStrTruthy : Option String → Bool
  | none => false
  | some s => s != ""

/-- The candidate token paths probed by `_get_token`, in source order:
`'.gics_token'`, `os.path.expanduser('~/.gics_token')` (with `home` the
expansion of `~`), and `'../.gics_token'`. -/
def token_paths (home : String) : List String :=
  [".gics_token", home ++ "/.gics_token", "../.gics_token"]

/-- The whitespace characters stripped by Python `str.strip()`: space, tab,
newline, carriage return, vertical tab and form feed. -/
def isPySpace (c : Char) : Bool :=
  c = ' ' || c = '\t' || c = '\n' || c = '\r' ||
    c = Char.ofNat 0x0B || c = Char.ofNat 0x0C

/-- Python `s.strip()`: drop leading and trailing whitespace. -/
def pyStrip (s : String) : String :=
  ⟨((s.data.dropWhile isPySpace).reverse.dropWhile isPySpace).reverse⟩

/-- Observable outcome of one `_get_token` call: the returned token, the
paths on which `os.path.exists` was called (in order), the files actually
opened and read, and the value of `self._token` afterwards. -/
structure TokenOut where
  result : Option String
  probed : List String
  readFiles : List String
  cached : Option String
deriving DecidableEq, Repr

/-- The probing loop of `_get_token`: for each candidate path in order, if it
exists, read it, strip the contents, store them in `self._token` and return
them; if no candidate exists, return `None` leaving `self._token`
unchanged. -/
def probeToken (fs : FS) (token : Option String) : List String → TokenOut
  | [] => ⟨none, [], [], token⟩
  | p :: rest =>
    if fs.pathExists p then
      ⟨some (pyStrip (fs.read p)), [p], [p], some (pyStrip (fs.read p))⟩
    else
      let r := probeToken fs token rest
      ⟨r.result, p :: r.probed, r.readFiles, r.cached⟩

/-- Embedding of `GICSClient._get_token`: `if self._token: return self._token`
(Python truthiness), else probe the candidate paths in order. -/
def get_token (fs : FS) (home : String) (token : Option String) : TokenOut :=
  if optStrTruthy token then ⟨token, [], [], token⟩
  else probeToken fs token (token_paths home)

/-- The first candidate path that exists on the filesystem, if any. -/
def firstExisting (fs : FS) (paths : List String) : Option String :=
  paths.find? fun p => fs.pathExists p

/-! ## Sequences of pool operations -/

/-- One pool operation: an `_acquire_unix_socket` (with the fresh connection
a pool miss would open) or a `_release_unix_socket`. -/
inductive PoolOp where
  | acquire (fresh : Conn)
  | release (c : Option Conn) (healthy : Bool)

/-- Run a sequence of pool operations; returns the final pool state and the
list of connections handed out by the acquires, in order. -/
def runPoolOps (pool_size : Nat) : List PoolOp → PoolState → PoolState × List Conn
  | [], st => (st, [])
  | .acquire fresh :: ops, st =>
    let c := (acquire_unix_socket st fresh).1
    let st₁ := (acquire_unix_socket st fresh).2
    let r := runPoolOps pool_size ops st₁
    (r.1, c :: r.2)
  | .release c h :: ops, st =>
    runPoolOps pool_size ops (release_unix_socket st c h pool_size)

/-- Run a sequence of releases (each a socket argument and a `healthy`
flag). -/
def runReleases (pool_size : Nat) : List (Option Conn × Bool) → PoolState → PoolState
  | [], st => st
  | (c, h) :: rest, st =>
    runReleases pool_size rest (release_unix_socket st c h pool_size)

/-- The bytes carried by a `recv` event (empty for an error event). -/
def chunkBytes : RecvEvent → List Nat
  | .chunk bs => bs
  | .oserror => []

/-- The pool state reached after the first `k` attempts of a `_call` that
starts attempt numbering at `attempt` in state `st`. -/
def stateIter (loads : List Nat → DecodeResult) (pool_size : Nat)
    (envs : Nat → AttemptEnv) : Nat → PoolState → Nat → PoolState
  | _, st, 0 => st
  | attempt, st, k + 1 =>
    stateIter loads pool_size envs (attempt + 1)
      (runAttempt loads pool_size (envs attempt) st).st k

/-! ## Helper lemmas -/

theorem unwrap_result_error_none (es : List (String × PyVal))
    (h : lookupKey es "error" = none) :
    unwrap_result (PyVal.dict es) = .ok ((lookupKey es "result").getD PyVal.null) := by
  simp [unwrap_result, pyGet, h, PyVal.truthy, bind, Except.bind]

theorem unwrap_result_error_falsy (es : List (String × PyVal)) (e : PyVal)
    (h : lookupKey es "error" = some e) (hf : e.truthy = false) :
    unwrap_result (PyVal.dict es) = .ok ((lookupKey es "result").getD PyVal.null) := by
  simp [unwrap_result, pyGet, h, hf, bind, Except.bind]

theorem unwrap_result_error_truthy_dict (es des : List (String × PyVal))
    (h : lookupKey es "error" = some (PyVal.dict des))
    (ht : (PyVal.dict des).truthy = true) :
    unwrap_result (PyVal.dict es) =
      .error (.gicsError ((lookupKey des "code").getD (PyVal.int (-1)))
        ((lookupKey des "message").getD (PyVal.str "Unknown error"))) := by
  simp [unwrap_result, pyGet, h, ht, bind, Except.bind]

theorem release_pool_length_le (st : PoolState) (c : Option Conn) (hb : Bool)
    (cap : Nat) (hle : st.pool.length ≤ cap) :
    (release_unix_socket st c hb cap).pool.length ≤ cap := by
  cases c with
  | none => simpa [release_unix_socket] using hle
  | some c =>
    by_cases h : hb
    · by_cases hlt : st.pool.length < cap
      · simp [release_unix_socket, h, hlt]
        omega
      · simp [release_unix_socket, h, hlt]
        exact hle
    · simp [release_unix_socket, h]
      exact hle

theorem runReleases_pool_length_le (cap : Nat) :
    ∀ (rs : List (Option Conn × Bool)) (st : PoolState),
      st.pool.length ≤ cap → (runReleases cap rs st).pool.length ≤ cap := by
  intro rs
  induction rs with
  | nil => intro st h; simpa [runReleases] using h
  | cons r rest ih =>
    intro st h
    simpa [runReleases] using ih _ (release_pool_length_le st r.1 r.2 cap h)

theorem assignedIds_eq_range' : ∀ (n s : Nat), assignedIds s n = List.range' s n := by
  intro n
  induction n with
  | zero => intro s; rfl
  | succ m ih => intro s; simp [assignedIds, next_request_id, List.range', ih]

theorem probeToken_all_absent (fs : FS) :
    ∀ (paths : List String) (tok : Option String),
      firstExisting fs paths = none →
      probeToken fs tok paths = ⟨none, paths, [], tok⟩ := by
  intro paths
  induction paths with
  | nil => intro tok _; rfl
  | cons p rest ih =>
    intro tok h
    rw [firstExisting, List.find?] at h
    cases hp : fs.pathExists p with
    | true => rw [hp] at h; simp at h
    | false =>
      rw [hp] at h
      simp only [cond_false] at h
      simp [probeToken, hp, ih tok h]

theorem probeToken_first_found (fs : FS) :
    ∀ (paths : List String) (tok : Option String) (p : String),
      firstExisting fs paths = some p →
      (probeToken fs tok paths).result = some (pyStrip (fs.read p)) ∧
      (probeToken fs tok paths).readFiles = [p] ∧
      (probeToken fs tok paths).cached = some (pyStrip (fs.read p)) := by
  intro paths
  induction paths with
  | nil => intro tok p h; simp [firstExisting, List.find?] at h
  | cons q rest ih =>
    intro tok p h
    rw [firstExisting, List.find?] at h
    cases hq : fs.pathExists q with
    | true =>
      rw [hq] at h
      simp only [cond_true, Option.some.injEq] at h
      subst h
      simp [probeToken, hq]
    | false =>
      rw [hq] at h
      simp only [cond_false] at h
      have := ih tok p h
      simp [probeToken, hq, this]

/-! ## Claims -/

/-- C3: the unwrapping of a decoded response raises the daemon error if and
only if an `error` field is present — refuted: in
`GICSClient._unwrap_result` the guard is `if response.get('error'):`, which
tests Python truthiness, not presence.  On the concrete response
`{'error': None, 'result': 5}` the `error` field is present, yet no failure
is raised and the `result` field `5` is returned. -/
theorem C3_counterexample :
    lookupKey [("error", PyVal.null), ("result", PyVal.int 5)] "error" =
      some PyVal.null ∧
    unwrap_result (PyVal.dict [("error", PyVal.null), ("result", PyVal.int 5)]) =
      Except.ok (PyVal.int 5) := by
  exact ⟨rfl, rfl⟩

/-- C3 (amended): `_unwrap_result` raises the daemon failure carrying `code`
and `message` (with defaults `-1` and `'Unknown error'`) if and only if the
`error` field is present with a truthy value, which for a well-formed
envelope is an object; when `error` is absent or falsy it returns the
`result` field, and the per-method extractors then return the `ok` field
(default `False`) for put/delete/unsubscribe and the `items` field (default
`[]`) for scan whenever the result is an object. -/
theorem C3_unwrap_amended (es : List (String × PyVal)) :
    ((∃ c m, unwrap_result (PyVal.dict es) = .error (.gicsError c m)) ↔
      (∃ e, lookupKey es "error" = some e ∧ e.truthy = true ∧
        ∃ des, e = PyVal.dict des)) ∧
    (∀ des, lookupKey es "error" = some (PyVal.dict des) →
      (PyVal.dict des).truthy = true →
      unwrap_result (PyVal.dict es) =
        .error (.gicsError ((lookupKey des "code").getD (PyVal.int (-1)))
          ((lookupKey des "message").getD (PyVal.str "Unknown error")))) ∧
    ((∀ e, lookupKey es "error" = some e → e.truthy = false) →
      unwrap_result (PyVal.dict es) =
        .ok ((lookupKey es "result").getD PyVal.null)) ∧
    (∀ rs, unwrap_result (PyVal.dict es) = .ok (PyVal.dict rs) →
      put_unwrap (PyVal.dict es) = .ok ((lookupKey rs "ok").getD (PyVal.bool false)) ∧
      delete_unwrap (PyVal.dict es) = .ok ((lookupKey rs "ok").getD (PyVal.bool false)) ∧
      unsubscribe_unwrap (PyVal.dict es) = .ok ((lookupKey rs "ok").getD (PyVal.bool false)) ∧
      scan_unwrap (PyVal.dict es) = .ok ((lookupKey rs "items").getD (PyVal.list []))) := by
  refine ⟨?_, ?_, ?_, ?_⟩
  · constructor
    · rintro ⟨c, m, hcm⟩
      cases h : lookupKey es "error" with
      | none => rw [unwrap_result_error_none es h] at hcm; exact absurd hcm (by simp)
      | some e =>
        cases ht : e.truthy with
        | false =>
          rw [unwrap_result_error_falsy es e h ht] at hcm
          exact absurd hcm (by simp)
        | true =>
          cases e with
          | dict des => exact ⟨PyVal.dict des, rfl, ht, des, rfl⟩
          | null => simp [PyVal.truthy] at ht
          | bool b =>
            exfalso
            simp [unwrap_result, pyGet, h, ht, bind, Except.bind] at hcm
          | int n =>
            exfalso
            simp [unwrap_result, pyGet, h, ht, bind, Except.bind] at hcm
          | str s =>
            exfalso
            simp [unwrap_result, pyGet, h, ht, bind, Except.bind] at hcm
          | list xs =>
            exfalso
            simp [unwrap_result, pyGet, h, ht, bind, Except.bind] at hcm
    · rintro ⟨e, h, ht, des, hdes⟩
      subst hdes
      exact ⟨_, _, unwrap_result_error_truthy_dict es des h ht⟩
  · intro des h ht
    exact unwrap_result_error_truthy_dict es des h ht
  · intro hfalsy
    cases h : lookupKey es "error" with
    | none => exact unwrap_result_error_none es h
    | some e => exact unwrap_result_error_falsy es e h (hfalsy e h)
  · intro rs hok
    refine ⟨?_, ?_, ?_, ?_⟩ <;>
      simp [put_unwrap, delete_unwrap, unsubscribe_unwrap, scan_unwrap, hok, pyGet, bind, Except.bind]

/-- C3 witness: the amended theorem applied to the concrete response
`{'error': {'code': 7, 'message': 'bad'}}` and to
`{'result': {'ok': True}}`. -/
theorem C3_unwrap_amended_witness :
    unwrap_result (PyVal.dict [("error",
        PyVal.dict [("code", PyVal.int 7), ("message", PyVal.str "bad")])]) =
      .error (.gicsError (PyVal.int 7) (PyVal.str "bad")) ∧
    put_unwrap (PyVal.dict [("result", PyVal.dict [("ok", PyVal.bool true)])]) =
      .ok (PyVal.bool true) := by
  constructor
  · exact (C3_unwrap_amended
      [("error", PyVal.dict [("code", PyVal.int 7), ("message", PyVal.str "bad")])]).2.1
      [("code", PyVal.int 7), ("message", PyVal.str "bad")] rfl rfl
  · exact ((C3_unwrap_amended [("result", PyVal.dict [("ok", PyVal.bool true)])]).2.2.2
      [("ok", PyVal.bool true)] rfl).1

/-- C10: on a decoded response whose `error` field is absent or falsy and
whose `result` field is absent or `None`, `_unwrap_result` returns `None`
and every field-extracting method (put, delete, scan, report_outcome,
subscribe, unsubscribe) then calls `.get` on `None`, raising
`AttributeError` instead of returning its documented default. -/
theorem C10_null_result_attribute_error (es : List (String × PyVal))
    (herr : ∀ e, lookupKey es "error" = some e → e.truthy = false)
    (hres : ∀ r, lookupKey es "result" = some r → r = PyVal.null) :
    put_unwrap (PyVal.dict es) = .error .attributeError ∧
    delete_unwrap (PyVal.dict es) = .error .attributeError ∧
    scan_unwrap (PyVal.dict es) = .error .attributeError ∧
    report_outcome_unwrap (PyVal.dict es) = .error .attributeError ∧
    subscribe_unwrap (PyVal.dict es) = .error .attributeError ∧
    unsubscribe_unwrap (PyVal.dict es) = .error .attributeError := by
  have hok : unwrap_result (PyVal.dict es) = .ok PyVal.null := by
    have h : unwrap_result (PyVal.dict es) =
        .ok ((lookupKey es "result").getD PyVal.null) := by
      cases h : lookupKey es "error" with
      | none => exact unwrap_result_error_none es h
      | some e => exact unwrap_result_error_falsy es e h (herr e h)
    cases hr : lookupKey es "result" with
    | none => rw [h, hr]; rfl
    | some r => rw [h, hr, hres r hr]; rfl
  refine ⟨?_, ?_, ?_, ?_, ?_, ?_⟩ <;>
    simp [put_unwrap, delete_unwrap, scan_unwrap, report_outcome_unwrap,
      subscribe_unwrap, unsubscribe_unwrap, hok, pyGet, bind, Except.bind]

/-- C10 witness: the theorem applied to the concrete response
`{'result': None}`. -/
theorem C10_null_result_attribute_error_witness :
    put_unwrap (PyVal.dict [("result", PyVal.null)]) = .error .attributeError ∧
    delete_unwrap (PyVal.dict [("result", PyVal.null)]) = .error .attributeError ∧
    scan_unwrap (PyVal.dict [("result", PyVal.null)]) = .error .attributeError ∧
    report_outcome_unwrap (PyVal.dict [("result", PyVal.null)]) = .error .attributeError ∧
    subscribe_unwrap (PyVal.dict [("result", PyVal.null)]) = .error .attributeError ∧
    unsubscribe_unwrap (PyVal.dict [("result", PyVal.null)]) = .error .attributeError := by
  refine C10_null_result_attribute_error [("result", PyVal.null)] ?_ ?_
  · intro e he; simp [lookupKey] at he
  · intro r hr; simp [lookupKey] at hr; exact hr.symm

/-- C5: the ids assigned to the first N calls on one client are exactly
1..N, monotonically increasing with no gaps or repeats.  Each id is taken
and incremented atomically under `self._request_id_lock`, so any
interleaving of concurrent callers is a sequential composition of atomic
`next_request_id` steps from the initial counter value 1, which is what
`assignedIds 1 N` iterates; `List.range' 1 N` is the list `[1, ..., N]`. -/
theorem C5_correlation_ids (N : Nat) :
    assignedIds 1 N = List.range' 1 N ∧ (assignedIds 1 N).Nodup ∧
    (assignedIds 1 N).Chain' (· < ·) := by
  refine ⟨assignedIds_eq_range' N 1, ?_, ?_⟩
  · rw [assignedIds_eq_range' N 1]
    exact List.nodup_range' _ _
  · rw [assignedIds_eq_range' N 1]
    exact List.Pairwise.chain' (List.pairwise_lt_range' _ _ 1 (by omega))

/-- C4: the pool capacity is coerced to at least 1 at construction; a
healthy release appends to the idle pool exactly while the idle count is
strictly below that capacity, any further healthy release closes the
connection instead, and over any sequence of release operations the idle
pool never exceeds the capacity. -/
theorem C4_pool_capacity (pool_size : Int) :
    1 ≤ (init_pool_size pool_size).toNat ∧
    (∀ st c, st.pool.length < (init_pool_size pool_size).toNat →
      release_unix_socket st (some c) true (init_pool_size pool_size).toNat =
        { st with pool := st.pool ++ [c] }) ∧
    (∀ st c, ¬ st.pool.length < (init_pool_size pool_size).toNat →
      release_unix_socket st (some c) true (init_pool_size pool_size).toNat =
        { st with closed := c :: st.closed }) ∧
    (∀ rs st, st.pool.length ≤ (init_pool_size pool_size).toNat →
      (runReleases (init_pool_size pool_size).toNat rs st).pool.length ≤
        (init_pool_size pool_size).toNat) := by
  refine ⟨?_, ?_, ?_, ?_⟩
  · rw [init_pool_size]
    rcases le_total (1 : Int) pool_size with h | h
    · rw [max_eq_right h]; omega
    · rw [max_eq_left h]; simp
  · intro st c hlt
    simp [release_unix_socket, hlt]
  · intro st c hlt
    simp [release_unix_socket, hlt]
  · intro rs st h
    exact runReleases_pool_length_le _ rs st h

/-- C4 witness: with configured pool size 0 (coerced to capacity 1), a
healthy release into an empty pool is pooled, a healthy release into a full
pool is closed, and three healthy releases leave at most one idle
connection. -/
theorem C4_pool_capacity_witness :
    release_unix_socket ⟨[], []⟩ (some 5) true (init_pool_size 0).toNat =
      ⟨[5], []⟩ ∧
    release_unix_socket ⟨[8], []⟩ (some 5) true (init_pool_size 0).toNat =
      ⟨[8], [5]⟩ ∧
    (runReleases (init_pool_size 0).toNat
        [(some 1, true), (some 2, true), (some 3, true)] ⟨[], []⟩).pool.length ≤
      (init_pool_size 0).toNat := by
  have h := C4_pool_capacity 0
  exact ⟨h.2.1 ⟨[], []⟩ 5 (by decide), h.2.2.1 ⟨[8], []⟩ 5 (by decide),
    h.2.2.2 [(some 1, true), (some 2, true), (some 3, true)] ⟨[], []⟩ (by decide)⟩

/-- C7: a client constructed with an explicit token always attaches it
verbatim and reads no file — refuted: `_get_token` guards on `if
self._token:` (Python truthiness), so a client constructed with the explicit
token `''` falls through to file probing; with an existing `.gics_token`
file the request token becomes the file contents, and a file is read. -/
theorem C7_counterexample :
    (get_token ⟨fun p => p == ".gics_token", fun _ => "filetok"⟩ "/home/user"
        (some "")).readFiles = [".gics_token"] ∧
    (get_token ⟨fun p => p == ".gics_token", fun _ => "filetok"⟩ "/home/user"
        (some "")).result = some "filetok" := by
  exact ⟨rfl, rfl⟩

/-- C7 (amended): for every client constructed with a non-empty explicit
token, even when candidate token files exist, every request attaches the
explicit token verbatim and token resolution probes and reads no file. -/
theorem C7_explicit_token_amended (fs : FS) (home : String) (t : String)
    (ht : t ≠ "") (method : String) (params : List (String × PyVal)) (rid : Nat) :
    get_token fs home (some t) = ⟨some t, [], [], some t⟩ ∧
    (build_request method params rid (get_token fs home (some t)).result).token =
      some t := by
  have htr : optStrTruthy (some t) = true := by
    simpa [optStrTruthy] using ht
  exact ⟨by simp [get_token, htr], by simp [get_token, htr, build_request]⟩

/-- C7 witness: the amended theorem applied to the explicit token `secret`
on a filesystem where every candidate file exists. -/
theorem C7_explicit_token_amended_witness :
    get_token ⟨fun _ => true, fun _ => "filetok"⟩ "/home/user" (some "secret") =
      ⟨some "secret", [], [], some "secret"⟩ ∧
    (build_request "ping" [] 1
        (get_token ⟨fun _ => true, fun _ => "filetok"⟩ "/home/user"
          (some "secret")).result).token = some "secret" :=
  C7_explicit_token_amended ⟨fun _ => true, fun _ => "filetok"⟩ "/home/user"
    "secret" (by decide) "ping" [] 1

/-- C8: token resolution happens at most once per client lifetime —
refuted: when no candidate file exists, `_get_token` returns `None` without
caching anything truthy, so the next call probes the filesystem again.  On a
filesystem with no candidate files, the second call (fed the cache left by
the first) probes all three paths again. -/
theorem C8_counterexample :
    (get_token ⟨fun _ => false, fun _ => ""⟩ "/home/user"
        (get_token ⟨fun _ => false, fun _ => ""⟩ "/home/user" none).cached).probed =
      [".gics_token", "/home/user/.gics_token", "../.gics_token"] ∧
    (get_token ⟨fun _ => false, fun _ => ""⟩ "/home/user" none).probed =
      [".gics_token", "/home/user/.gics_token", "../.gics_token"] := by
  exact ⟨rfl, rfl⟩

/-- C8 (amended): when a resolution produces a non-empty token — the
explicit value, or the stripped contents of the first existing candidate
file probed in the fixed order current directory, home directory, parent
directory — that value is cached and every later call returns it without
touching the filesystem; a resolution in which no candidate exists yields no
token (and is not cached, so later calls probe again). -/
theorem C8_token_caching_amended (fs fsLater : FS) (home : String) (t : String)
    (ht : t ≠ "") (p : String) :
    get_token fsLater home (some t) = ⟨some t, [], [], some t⟩ ∧
    (firstExisting fs (token_paths home) = some p →
      (get_token fs home none).result = some (pyStrip (fs.read p)) ∧
      (get_token fs home none).readFiles = [p] ∧
      (get_token fs home none).cached = some (pyStrip (fs.read p))) ∧
    (firstExisting fs (token_paths home) = none →
      get_token fs home none = ⟨none, token_paths home, [], none⟩) := by
  have htr : optStrTruthy (some t) = true := by
    simpa [optStrTruthy] using ht
  refine ⟨by simp [get_token, htr], ?_, ?_⟩
  · intro h
    simpa [get_token, optStrTruthy] using
      probeToken_first_found fs (token_paths home) none p h
  · intro h
    simpa [get_token, optStrTruthy] using
      probeToken_all_absent fs (token_paths home) none h

/-- C8 witness: the amended theorem applied to a cached token `tok` (no
probing on the later call) and to a first resolution on a filesystem where
`.gics_token` exists with contents ` tok` and a trailing newline. -/
theorem C8_token_caching_amended_witness :
    get_token ⟨fun _ => false, fun _ => ""⟩ "/h" (some "tok") =
      ⟨some "tok", [], [], some "tok"⟩ ∧
    (get_token ⟨fun _ => true, fun _ => " tok\n"⟩ "/h" none).result =
      some "tok" := by
  have h := C8_token_caching_amended ⟨fun _ => true, fun _ => " tok\n"⟩
    ⟨fun _ => false, fun _ => ""⟩ "/h" "tok" (by decide) ".gics_token"
  refine ⟨h.1, ?_⟩
  rw [(h.2.1 (by rfl)).1]
  rfl

theorem callAux_all_transient (loads : List Nat → DecodeResult) (ps : Nat)
    {δ : Type} (retry_delay : δ) (envs : Nat → AttemptEnv)
    (htrans : ∀ i st', ∃ e, (runAttempt loads ps (envs i) st').res = .transient e) :
    ∀ (k attempt : Nat) (st : PoolState),
      (callAux loads ps retry_delay envs k attempt st).attempts = k + 1 ∧
      (callAux loads ps retry_delay envs k attempt st).sleeps =
        List.replicate k retry_delay ∧
      ∃ e, (runAttempt loads ps (envs (attempt + k))
          (stateIter loads ps envs attempt st k)).res = .transient e ∧
        (callAux loads ps retry_delay envs k attempt st).outcome = .raised e := by
  intro k
  induction k with
  | zero =>
    intro attempt st
    obtain ⟨e, he⟩ := htrans attempt st
    simp only [callAux]
    rw [he]
    exact ⟨rfl, rfl, e, by simpa [stateIter] using he, rfl⟩
  | succ m ih =>
    intro attempt st
    obtain ⟨e, he⟩ := htrans attempt st
    simp only [callAux]
    rw [he]
    obtain ⟨h1, h2, e', he', hout⟩ :=
      ih (attempt + 1) (runAttempt loads ps (envs attempt) st).st
    refine ⟨by simpa using h1, by simp [h2, List.replicate_succ], e', ?_, by simpa using hout⟩
    have harith : attempt + 1 + m = attempt + (m + 1) := by omega
    rw [show stateIter loads ps envs attempt st (m + 1) =
        stateIter loads ps envs (attempt + 1)
          (runAttempt loads ps (envs attempt) st).st m from rfl]
    rw [← harith]
    exact he'

/-- C1: with every attempt failing transiently, a `_call` with
`max_retries = r` performs exactly `r + 1` attempts, sleeps the fixed
`retry_delay` exactly once between consecutive attempts (the delay list is
`r` copies of the same configured value — no growth), and the error raised
to the caller is the transient error observed on the final attempt. -/
theorem C1_retry_exhaustion (loads : List Nat → DecodeResult) (ps : Nat)
    {δ : Type} (retry_delay : δ) (max_retries : Nat) (envs : Nat → AttemptEnv)
    (st : PoolState)
    (htrans : ∀ i st', ∃ e, (runAttempt loads ps (envs i) st').res = .transient e) :
    (call loads ps retry_delay max_retries envs st).attempts = max_retries + 1 ∧
    (call loads ps retry_delay max_retries envs st).sleeps =
      List.replicate max_retries retry_delay ∧
    ∃ e, (runAttempt loads ps (envs max_retries)
        (stateIter loads ps envs 0 st max_retries)).res = .transient e ∧
      (call loads ps retry_delay max_retries envs st).outcome = .raised e := by
  have h := callAux_all_transient loads ps retry_delay envs htrans max_retries 0 st
  simpa [call] using h

/-- C1 witness: with `max_retries = 2` and a transport on which `sendall`
always fails with `OSError`, the call performs 3 attempts, sleeps twice with
the same delay, and raises the `OSError` of the final attempt. -/
theorem C1_retry_exhaustion_witness :
    (call (fun _ => DecodeResult.jsonError) 1 (5 : Nat) 2
        (fun _ => ⟨true, 0, false, []⟩) ⟨[], []⟩).attempts = 3 ∧
    (call (fun _ => DecodeResult.jsonError) 1 (5 : Nat) 2
        (fun _ => ⟨true, 0, false, []⟩) ⟨[], []⟩).sleeps = [5, 5] ∧
    (call (fun _ => DecodeResult.jsonError) 1 (5 : Nat) 2
        (fun _ => ⟨true, 0, false, []⟩) ⟨[], []⟩).outcome =
      .raised PyErr.osError := by
  have htrans : ∀ (i : Nat) (st' : PoolState),
      ∃ e, (runAttempt (fun _ => DecodeResult.jsonError) 1
        ((fun _ => (⟨true, 0, false, []⟩ : AttemptEnv)) i) st').res = .transient e := by
    intro i st'
    refine ⟨.osError, ?_⟩
    simp [runAttempt]
  have h := C1_retry_exhaustion (fun _ => DecodeResult.jsonError) 1 (5 : Nat) 2
    (fun _ => ⟨true, 0, false, []⟩) ⟨[], []⟩ htrans
  obtain ⟨h1, h2, e, he, hout⟩ := h
  have he' : AttemptRes.transient PyErr.osError = AttemptRes.transient e := by
    rw [← he]
    rfl
  cases he'
  exact ⟨h1, by simpa using h2, hout⟩

theorem runAttempt_success (loads : List Nat → DecodeResult) (ps : Nat)
    (env : AttemptEnv) (st : PoolState) (buffer : List Nat) (v : PyVal)
    (hacq : st.pool ≠ [] ∨ env.acquireOk = true)
    (hsend : env.sendOk = true)
    (hrecv : recvLoop env.recvs [] = .ok buffer)
    (hload : loads (buffer.takeWhile (· ≠ 10)) = .ok v) :
    runAttempt loads ps env st =
      ⟨.success v, some (acquire_unix_socket st env.fresh).1, some true,
        release_unix_socket (acquire_unix_socket st env.fresh).2
          (some (acquire_unix_socket st env.fresh).1) true ps⟩ := by
  have hcond : (st.pool.isEmpty && !env.acquireOk) = false := by
    rcases hacq with h | h
    · simp [List.isEmpty_iff, h]
    · simp [h]
  rw [runAttempt, hcond]
  simp only [Bool.false_eq_true, if_false, hsend, Bool.not_true, hrecv, hload]

theorem acquire_pool_length_lt (st : PoolState) (fresh : Conn) (ps : Nat)
    (hcap : 1 ≤ ps) (hst : st.pool.length ≤ ps) :
    (acquire_unix_socket st fresh).2.pool.length < ps := by
  rw [acquire_unix_socket]
  cases h : st.pool.getLast? with
  | some c =>
    have hne : st.pool ≠ [] := by
      intro hnil
      rw [hnil] at h
      simp at h
    have hlen : 1 ≤ st.pool.length := List.length_pos.mpr hne
    simp only [List.length_dropLast]
    omega
  | none =>
    have hnil : st.pool = [] := by
      cases hp : st.pool with
      | nil => rfl
      | cons a l =>
        rw [hp] at h
        simp [List.getLast?_concat, List.getLast?] at h
    simp [hnil]
    omega

/-- C2: when the transport delivers a well-formed response frame that
decodes to a JSON object carrying a truthy error envelope, the call returns
after exactly one attempt with no sleep, regardless of `max_retries`; the
connection that carried the response is released with `healthy=True` and
(given the pool invariant `len(pool) <= capacity` and capacity at least 1)
is appended back to the idle pool; `_unwrap_result` then raises a single
failure exposing the daemon error code and message, so no retry ever
happens. -/
theorem C2_no_retry_on_error_envelope (loads : List Nat → DecodeResult)
    (ps : Nat) {δ : Type} (retry_delay : δ) (max_retries : Nat)
    (envs : Nat → AttemptEnv) (st : PoolState)
    (es des : List (String × PyVal)) (buffer : List Nat)
    (hcap : 1 ≤ ps) (hst : st.pool.length ≤ ps)
    (hacq : st.pool ≠ [] ∨ (envs 0).acquireOk = true)
    (hsend : (envs 0).sendOk = true)
    (hrecv : recvLoop (envs 0).recvs [] = .ok buffer)
    (hload : loads (buffer.takeWhile (· ≠ 10)) = .ok (PyVal.dict es))
    (herr : lookupKey es "error" = some (PyVal.dict des))
    (ht : (PyVal.dict des).truthy = true) :
    (call loads ps retry_delay max_retries envs st).attempts = 1 ∧
    (call loads ps retry_delay max_retries envs st).sleeps = [] ∧
    (call loads ps retry_delay max_retries envs st).outcome =
      .returned (PyVal.dict es) ∧
    (call loads ps retry_delay max_retries envs st).releases =
      [((acquire_unix_socket st (envs 0).fresh).1, true)] ∧
    (call loads ps retry_delay max_retries envs st).st.pool =
      (acquire_unix_socket st (envs 0).fresh).2.pool ++
        [(acquire_unix_socket st (envs 0).fresh).1] ∧
    unwrap_result (PyVal.dict es) =
      .error (.gicsError ((lookupKey des "code").getD (PyVal.int (-1)))
        ((lookupKey des "message").getD (PyVal.str "Unknown error"))) := by
  have hA := runAttempt_success loads ps (envs 0) st buffer (PyVal.dict es)
    hacq hsend hrecv hload
  have hlt := acquire_pool_length_lt st (envs 0).fresh ps hcap hst
  have hrel : release_unix_socket (acquire_unix_socket st (envs 0).fresh).2
      (some (acquire_unix_socket st (envs 0).fresh).1) true ps =
      { (acquire_unix_socket st (envs 0).fresh).2 with
        pool := (acquire_unix_socket st (envs 0).fresh).2.pool ++
          [(acquire_unix_socket st (envs 0).fresh).1] } := by
    simp [release_unix_socket, hlt]
  have hcall : call loads ps retry_delay max_retries envs st =
      ⟨.returned (PyVal.dict es), 1, [], [],
        (runAttempt loads ps (envs 0) st).releaseRec,
        (runAttempt loads ps (envs 0) st).st⟩ := by
    cases max_retries with
    | zero =>
      rw [call]
      simp only [callAux]
      rw [hA]
    | succ m =>
      rw [call]
      simp only [callAux]
      rw [hA]
  refine ⟨by rw [hcall], by rw [hcall], by rw [hcall], ?_, ?_, ?_⟩
  · rw [hcall]
    simp [AttemptOut.releaseRec, hA]
  · rw [hcall]
    simp only [hA]
    rw [hrel]
  · exact unwrap_result_error_truthy_dict es des herr ht

/-- C2 witness: the theorem applied to a transport that returns the frame
for the object with error envelope code 3, message `x`; one attempt, the
connection 7 is pooled again, and the unwrap raises the daemon error, with
`max_retries = 3`. -/
theorem C2_no_retry_on_error_envelope_witness :
    (call (fun l => if l = [123] then
        DecodeResult.ok (PyVal.dict [("error",
          PyVal.dict [("code", PyVal.int 3), ("message", PyVal.str "x")])])
      else DecodeResult.jsonError) 4 (5 : Nat) 3
      (fun _ => ⟨true, 7, true, [.chunk [123, 10]]⟩) ⟨[], []⟩).attempts = 1 ∧
    (call (fun l => if l = [123] then
        DecodeResult.ok (PyVal.dict [("error",
          PyVal.dict [("code", PyVal.int 3), ("message", PyVal.str "x")])])
      else DecodeResult.jsonError) 4 (5 : Nat) 3
      (fun _ => ⟨true, 7, true, [.chunk [123, 10]]⟩) ⟨[], []⟩).releases =
      [(7, true)] ∧
    (call (fun l => if l = [123] then
        DecodeResult.ok (PyVal.dict [("error",
          PyVal.dict [("code", PyVal.int 3), ("message", PyVal.str "x")])])
      else DecodeResult.jsonError) 4 (5 : Nat) 3
      (fun _ => ⟨true, 7, true, [.chunk [123, 10]]⟩) ⟨[], []⟩).st.pool = [7] ∧
    unwrap_result (PyVal.dict [("error",
        PyVal.dict [("code", PyVal.int 3), ("message", PyVal.str "x")])]) =
      .error (.gicsError (PyVal.int 3) (PyVal.str "x")) := by
  have h := C2_no_retry_on_error_envelope
    (fun l => if l = [123] then
        DecodeResult.ok (PyVal.dict [("error",
          PyVal.dict [("code", PyVal.int 3), ("message", PyVal.str "x")])])
      else DecodeResult.jsonError) 4 (5 : Nat) 3
    (fun _ => ⟨true, 7, true, [.chunk [123, 10]]⟩) ⟨[], []⟩
    [("error", PyVal.dict [("code", PyVal.int 3), ("message", PyVal.str "x")])]
    [("code", PyVal.int 3), ("message", PyVal.str "x")] [123, 10]
    (by decide) (by decide) (Or.inr rfl) rfl rfl rfl rfl rfl
  exact ⟨h.1, h.2.2.2.1, h.2.2.2.2.1, h.2.2.2.2.2⟩

theorem mem_of_getLast?_eq_some {l : List Conn} {a : Conn}
    (h : l.getLast? = some a) : a ∈ l := by
  obtain ⟨hne, heq⟩ := List.mem_getLast?_eq_getLast (show a ∈ l.getLast? by rw [h]; rfl)
  rw [heq]
  exact List.getLast_mem hne

theorem acquire_mem_or_fresh (st : PoolState) (fresh : Conn) :
    (acquire_unix_socket st fresh).1 ∈ st.pool ∨
      (acquire_unix_socket st fresh).1 = fresh := by
  rw [acquire_unix_socket]
  cases h : st.pool.getLast? with
  | some c => exact Or.inl (mem_of_getLast?_eq_some h)
  | none => exact Or.inr rfl

theorem acquire_pool_not_mem (st : PoolState) (fresh : Conn) (s : Conn)
    (hmem : s ∉ st.pool) : s ∉ (acquire_unix_socket st fresh).2.pool := by
  rw [acquire_unix_socket]
  cases h : st.pool.getLast? with
  | some c =>
    intro hm
    exact hmem ((List.dropLast_sublist st.pool).mem hm)
  | none => exact hmem

theorem acquire_self_not_mem (st : PoolState) (fresh : Conn)
    (hnd : st.pool.Nodup) (hf : fresh ∉ st.pool) :
    (acquire_unix_socket st fresh).1 ∉ (acquire_unix_socket st fresh).2.pool := by
  rw [acquire_unix_socket]
  cases h : st.pool.getLast? with
  | none => simpa using hf
  | some c =>
    have hne : st.pool ≠ [] := by
      intro hnil
      rw [hnil] at h
      simp at h
    have hc : c = st.pool.getLast hne := by
      rw [List.getLast?_eq_getLast_of_ne_nil hne] at h
      exact (Option.some.injEq _ _ ▸ h).symm
    have hsplit := List.dropLast_append_getLast hne
    rw [← hsplit] at hnd
    have hdisj := (List.nodup_append.mp hnd).2.2
    intro hm
    exact hdisj hm (by rw [hc]; exact List.mem_singleton_self _)

theorem release_not_mem (st : PoolState) (c : Option Conn) (hb : Bool)
    (ps : Nat) (s : Conn) (hmem : s ∉ st.pool)
    (hc : ∀ c', c = some c' → c' ≠ s) :
    s ∉ (release_unix_socket st c hb ps).pool := by
  cases c with
  | none => simpa [release_unix_socket] using hmem
  | some c' =>
    rw [release_unix_socket]
    by_cases h : hb = true
    · by_cases hlt : st.pool.length < ps
      · simp only [h, Bool.not_true, Bool.false_eq_true, if_false, hlt, if_true]
        simp only [List.mem_append, List.mem_singleton]
        rintro (hm | hm)
        · exact hmem hm
        · exact hc c' rfl hm.symm
      · simp only [h, Bool.not_true, Bool.false_eq_true, if_false, hlt]
        simpa using hmem
    · have h' : hb = false := by
        cases hb
        · rfl
        · exact absurd rfl h
      simp only [h', Bool.not_false, if_true]
      exact hmem

theorem runPoolOps_avoid (ps : Nat) (s : Conn) :
    ∀ (ops : List PoolOp) (st : PoolState), s ∉ st.pool →
      (∀ f, PoolOp.acquire f ∈ ops → f ≠ s) →
      (∀ c hb, PoolOp.release (some c) hb ∈ ops → c ≠ s) →
      s ∉ (runPoolOps ps ops st).1.pool ∧ s ∉ (runPoolOps ps ops st).2 := by
  intro ops
  induction ops with
  | nil =>
    intro st hmem _ _
    exact ⟨hmem, by simp [runPoolOps]⟩
  | cons op rest ih =>
    intro st hmem hacq hrel
    cases op with
    | acquire f =>
      have hc : (acquire_unix_socket st f).1 ≠ s := by
        rcases acquire_mem_or_fresh st f with hm | hfr
        · intro heq
          rw [heq] at hm
          exact hmem hm
        · rw [hfr]
          exact hacq f (List.mem_cons_self _ _)
      have hm1 := acquire_pool_not_mem st f s hmem
      have hrec := ih (acquire_unix_socket st f).2 hm1
        (fun g hg => hacq g (List.mem_cons_of_mem _ hg))
        (fun c hb hcb => hrel c hb (List.mem_cons_of_mem _ hcb))
      refine ⟨hrec.1, ?_⟩
      simp only [runPoolOps, List.mem_cons]
      rintro (heq | hm)
      · exact hc heq.symm
      · exact hrec.2 hm
    | release c hb =>
      have hm1 := release_not_mem st c hb ps s hmem
        (fun c' hcc => hrel c' hb (by rw [← hcc]; exact List.mem_cons_self _ _))
      exact ih (release_unix_socket st c hb ps) hm1
        (fun g hg => hacq g (List.mem_cons_of_mem _ hg))
        (fun c' hb' hcb => hrel c' hb' (List.mem_cons_of_mem _ hcb))

theorem recvLoop_reset :
    ∀ (pre rest : List RecvEvent) (buf : List Nat),
      (∀ e ∈ pre, ∃ bs, e = RecvEvent.chunk bs ∧ bs ≠ []) →
      10 ∉ buf ++ (pre.map chunkBytes).flatten →
      recvLoop (pre ++ RecvEvent.chunk [] :: rest) buf = .error .connectionReset := by
  intro pre
  induction pre with
  | nil =>
    intro rest buf _ _
    simp [recvLoop]
  | cons e pre' ih =>
    intro rest buf hch h10
    obtain ⟨bs, hbs, hne⟩ := hch e (List.mem_cons_self _ _)
    subst hbs
    rw [List.cons_append, recvLoop]
    have hbe : bs.isEmpty = false := by
      cases bs
      · exact absurd rfl hne
      · rfl
    rw [hbe]
    simp only [Bool.false_eq_true, if_false]
    have h10' : 10 ∉ buf ++ bs := by
      intro hm
      apply h10
      have hmm : (10 : Nat) ∈ (buf ++ bs) ++ (pre'.map chunkBytes).flatten :=
        List.mem_append_left _ hm
      simpa [chunkBytes, List.append_assoc] using hmm
    rw [if_neg h10']
    exact ih rest (buf ++ bs)
      (fun e' he' => hch e' (List.mem_cons_of_mem _ he'))
      (by simpa [chunkBytes, List.append_assoc] using h10)

theorem runAttempt_recv_error (loads : List Nat → DecodeResult) (ps : Nat)
    (env : AttemptEnv) (st : PoolState) (e : PyErr)
    (hacq : st.pool ≠ [] ∨ env.acquireOk = true)
    (hsend : env.sendOk = true)
    (hrecv : recvLoop env.recvs [] = .error e) :
    runAttempt loads ps env st =
      ⟨.transient e, some (acquire_unix_socket st env.fresh).1, some false,
        release_unix_socket (acquire_unix_socket st env.fresh).2
          (some (acquire_unix_socket st env.fresh).1) false ps⟩ := by
  have hcond : (st.pool.isEmpty && !env.acquireOk) = false := by
    rcases hacq with h | h
    · simp [List.isEmpty_iff, h]
    · simp [h]
  rw [runAttempt, hcond]
  simp only [Bool.false_eq_true, if_false, hsend, Bool.not_true, hrecv]

/-- C6: when a `recv` returns zero bytes before any newline has been
observed (after any run of non-empty newline-free chunks), the attempt
raises `ConnectionResetError`, which is classified transient (retry
eligible); the connection is released with `healthy=False`, hence closed and
not returned to the idle pool; and no later sequence of pool operations that
does not re-introduce that connection can ever hand it out from an
`acquire`. -/
theorem C6_reset_eviction (loads : List Nat → DecodeResult) (ps : Nat)
    (env : AttemptEnv) (st : PoolState) (pre rest : List RecvEvent)
    (hacq : st.pool ≠ [] ∨ env.acquireOk = true)
    (hsend : env.sendOk = true)
    (hsh : env.recvs = pre ++ RecvEvent.chunk [] :: rest)
    (hpre : ∀ e ∈ pre, ∃ bs, e = RecvEvent.chunk bs ∧ bs ≠ [])
    (h10 : 10 ∉ (pre.map chunkBytes).flatten)
    (hnd : st.pool.Nodup) (hf : env.fresh ∉ st.pool) :
    recvLoop env.recvs [] = .error .connectionReset ∧
    (runAttempt loads ps env st).res = .transient .connectionReset ∧
    PyErr.transient .connectionReset = true ∧
    (runAttempt loads ps env st).conn = some (acquire_unix_socket st env.fresh).1 ∧
    (runAttempt loads ps env st).releasedHealthy = some false ∧
    (acquire_unix_socket st env.fresh).1 ∉ (runAttempt loads ps env st).st.pool ∧
    (acquire_unix_socket st env.fresh).1 ∈ (runAttempt loads ps env st).st.closed ∧
    (∀ (ops : List PoolOp),
      (∀ f, PoolOp.acquire f ∈ ops → f ≠ (acquire_unix_socket st env.fresh).1) →
      (∀ c hb, PoolOp.release (some c) hb ∈ ops →
        c ≠ (acquire_unix_socket st env.fresh).1) →
      (acquire_unix_socket st env.fresh).1 ∉
          (runPoolOps ps ops (runAttempt loads ps env st).st).1.pool ∧
        (acquire_unix_socket st env.fresh).1 ∉
          (runPoolOps ps ops (runAttempt loads ps env st).st).2) := by
  have hrecv : recvLoop env.recvs [] = .error .connectionReset := by
    rw [hsh]
    exact recvLoop_reset pre rest [] hpre (by simpa using h10)
  have hA := runAttempt_recv_error loads ps env st .connectionReset hacq hsend hrecv
  have hselfnm := acquire_self_not_mem st env.fresh hnd hf
  have hnotmem : (acquire_unix_socket st env.fresh).1 ∉
      (runAttempt loads ps env st).st.pool := by
    rw [hA]
    simp only [release_unix_socket, Bool.not_false, if_true]
    exact hselfnm
  refine ⟨hrecv, by rw [hA], rfl, by rw [hA], by rw [hA], hnotmem, ?_, ?_⟩
  · rw [hA]
    simp [release_unix_socket]
  · intro ops hops1 hops2
    exact runPoolOps_avoid ps (acquire_unix_socket st env.fresh).1 ops
      (runAttempt loads ps env st).st hnotmem hops1 hops2

/-- C6 witness: the theorem applied to a transport that sends the chunk
`[65]` and then closes the stream (empty `recv`), with fresh connection 7;
the attempt raises a transient reset, 7 is closed, and the later operations
acquire 9, release 9 never hand out 7. -/
theorem C6_reset_eviction_witness :
    recvLoop [RecvEvent.chunk [65], RecvEvent.chunk []] [] =
      .error .connectionReset ∧
    (runAttempt (fun _ => DecodeResult.jsonError) 4
        ⟨true, 7, true, [RecvEvent.chunk [65], RecvEvent.chunk []]⟩
        ⟨[], []⟩).res = .transient .connectionReset ∧
    PyErr.transient .connectionReset = true ∧
    (7 : Conn) ∉ (runAttempt (fun _ => DecodeResult.jsonError) 4
        ⟨true, 7, true, [RecvEvent.chunk [65], RecvEvent.chunk []]⟩
        ⟨[], []⟩).st.pool ∧
    (7 : Conn) ∉ (runPoolOps 4 [PoolOp.acquire 9, PoolOp.release (some 9) true]
        (runAttempt (fun _ => DecodeResult.jsonError) 4
          ⟨true, 7, true, [RecvEvent.chunk [65], RecvEvent.chunk []]⟩
          ⟨[], []⟩).st).2 := by
  have h := C6_reset_eviction (fun _ => DecodeResult.jsonError) 4
    ⟨true, 7, true, [RecvEvent.chunk [65], RecvEvent.chunk []]⟩ ⟨[], []⟩
    [RecvEvent.chunk [65]] [] (Or.inr rfl) rfl rfl
    (by intro e he; simp at he; exact ⟨[65], he, by simp⟩)
    (by simp [chunkBytes]) (by simp) (by simp)
  refine ⟨h.1, h.2.1, h.2.2.1, h.2.2.2.2.2.1, ?_⟩
  refine (h.2.2.2.2.2.2.2 [PoolOp.acquire 9, PoolOp.release (some 9) true]
    ?_ ?_).2
  · intro f hf
    have hf9 : f = 9 := by
      rcases List.mem_cons.mp hf with hh | hh
      · injection hh
      · simp at hh
    subst hf9
    decide
  · intro c hb hcb
    have hc9 : c = 9 := by
      rcases List.mem_cons.mp hcb with hh | hh
      · simp at hh
      · rw [List.mem_singleton] at hh
        injection hh with hh1 hh2
        injection hh1
    subst hc9
    decide

theorem recvLoop_ok_accum :
    ∀ (recvs : List RecvEvent) (buf b : List Nat),
      10 ∉ buf → recvLoop recvs buf = .ok b →
      ∃ consumed remaining, recvs = consumed ++ remaining ∧ consumed ≠ [] ∧
        (∀ e ∈ consumed, ∃ bs, e = RecvEvent.chunk bs ∧ bs ≠ []) ∧
        b = buf ++ (consumed.map chunkBytes).flatten ∧
        10 ∈ b ∧
        10 ∉ buf ++ ((consumed.dropLast).map chunkBytes).flatten := by
  intro recvs
  induction recvs with
  | nil =>
    intro buf b _ h
    simp [recvLoop] at h
  | cons e tl ih =>
    intro buf b h10 h
    cases e with
    | oserror => simp [recvLoop] at h
    | chunk bs =>
      rw [recvLoop] at h
      cases hbe : bs.isEmpty with
      | true =>
        rw [hbe] at h
        simp at h
      | false =>
        rw [hbe] at h
        simp only [Bool.false_eq_true, if_false] at h
        have hbne : bs ≠ [] := by
          intro hh
          rw [hh] at hbe
          simp at hbe
        by_cases hnl : (10 : Nat) ∈ buf ++ bs
        · rw [if_pos hnl] at h
          have hb : b = buf ++ bs := by
            injection h with h'
            exact h'.symm
          refine ⟨[RecvEvent.chunk bs], tl, rfl, by simp, ?_, ?_, ?_, ?_⟩
          · intro e he
            rw [List.mem_singleton] at he
            exact ⟨bs, he, hbne⟩
          · simp [hb, chunkBytes]
          · rw [hb]
            exact hnl
          · simpa using h10
        · rw [if_neg hnl] at h
          obtain ⟨consumed, remaining, hsplit, hne, hch, hb, hmem, hlast⟩ :=
            ih (buf ++ bs) b hnl h
          refine ⟨RecvEvent.chunk bs :: consumed, remaining, by rw [hsplit]; rfl,
            by simp, ?_, ?_, hmem, ?_⟩
          · intro e he
            rcases List.mem_cons.mp he with he | he
            · exact ⟨bs, he, hbne⟩
            · exact hch e he
          · rw [hb]
            simp [chunkBytes, List.append_assoc]
          · rw [List.dropLast_cons_of_ne_nil hne]
            simpa [chunkBytes, List.append_assoc] using hlast

/-- C9: the framing decoder of `_call` accumulates `recv` chunks until the
buffer holds a newline (the returned buffer is the concatenation of the
leading run of non-empty chunks, only the last of which introduced a
newline); the decoded line passed to `json.loads` is exactly the bytes
before the first newline (`buffer.split(b'\n')[0]`), so two transports whose
buffers agree before the first newline produce identical attempt outcomes —
value, release record and pool state — meaning the bytes after the first
newline are discarded and can never influence this or any later request
(the only state carried across calls is the pool). -/
theorem C9_framing (loads : List Nat → DecodeResult) (ps : Nat) :
    (∀ (recvs : List RecvEvent) (b : List Nat), recvLoop recvs [] = .ok b →
      10 ∈ b ∧
      ∃ consumed remaining, recvs = consumed ++ remaining ∧
        (∀ e ∈ consumed, ∃ bs, e = RecvEvent.chunk bs ∧ bs ≠ []) ∧
        b = (consumed.map chunkBytes).flatten ∧
        10 ∉ ((consumed.dropLast).map chunkBytes).flatten) ∧
    (∀ (env : AttemptEnv) (st : PoolState) (b : List Nat) (v : PyVal),
      st.pool ≠ [] ∨ env.acquireOk = true → env.sendOk = true →
      recvLoop env.recvs [] = .ok b →
      loads (b.takeWhile (· ≠ 10)) = .ok v →
      (runAttempt loads ps env st).res = .success v) ∧
    (∀ (env : AttemptEnv) (recvs₂ : List RecvEvent) (st : PoolState)
        (b₁ b₂ : List Nat),
      recvLoop env.recvs [] = .ok b₁ → recvLoop recvs₂ [] = .ok b₂ →
      b₁.takeWhile (· ≠ 10) = b₂.takeWhile (· ≠ 10) →
      runAttempt loads ps { env with recvs := recvs₂ } st =
        runAttempt loads ps env st) := by
  refine ⟨?_, ?_, ?_⟩
  · intro recvs b h
    obtain ⟨consumed, remaining, hsplit, _, hch, hb, hmem, hlast⟩ :=
      recvLoop_ok_accum recvs [] b (by simp) h
    exact ⟨hmem, consumed, remaining, hsplit, hch, by simpa using hb,
      by simpa using hlast⟩
  · intro env st b v hacq hsend hrecv hload
    rw [runAttempt_success loads ps env st b v hacq hsend hrecv hload]
  · intro env recvs₂ st b₁ b₂ h1 h2 htw
    obtain ⟨aok, fr, sok, rv⟩ := env
    simp only at h1
    rw [runAttempt, runAttempt]
    by_cases hc : (st.pool.isEmpty && !aok) = true
    · rw [if_pos hc, if_pos hc]
    · rw [if_neg hc, if_neg hc]
      cases sok with
      | false => rfl
      | true =>
        simp only [Bool.not_true, Bool.false_eq_true, if_false]
        rw [h1, h2]
        simp only
        rw [← htw]

/-- C9 witness: the theorem applied to a transport sending the chunks `[65]`
then `[66, 10, 99]`: the frame decodes from exactly `[65, 66]`, and changing
the post-newline byte `99` (dropping it) leaves the attempt outcome
unchanged. -/
theorem C9_framing_witness :
    (10 : Nat) ∈ [65, 66, 10, 99] ∧
    (runAttempt (fun l => if l = [65, 66] then DecodeResult.ok (PyVal.int 1)
        else DecodeResult.jsonError) 4
      ⟨true, 7, true, [RecvEvent.chunk [65], RecvEvent.chunk [66, 10, 99]]⟩
      ⟨[], []⟩).res = .success (PyVal.int 1) ∧
    runAttempt (fun l => if l = [65, 66] then DecodeResult.ok (PyVal.int 1)
        else DecodeResult.jsonError) 4
      ⟨true, 7, true, [RecvEvent.chunk [65, 66, 10]]⟩ ⟨[], []⟩ =
      runAttempt (fun l => if l = [65, 66] then DecodeResult.ok (PyVal.int 1)
        else DecodeResult.jsonError) 4
      ⟨true, 7, true, [RecvEvent.chunk [65], RecvEvent.chunk [66, 10, 99]]⟩
      ⟨[], []⟩ := by
  have h := C9_framing (fun l => if l = [65, 66] then DecodeResult.ok (PyVal.int 1)
    else DecodeResult.jsonError) 4
  refine ⟨?_, ?_, ?_⟩
  · exact (h.1 [RecvEvent.chunk [65], RecvEvent.chunk [66, 10, 99]]
      [65, 66, 10, 99] rfl).1
  · exact h.2.1 ⟨true, 7, true, [RecvEvent.chunk [65], RecvEvent.chunk [66, 10, 99]]⟩
      ⟨[], []⟩ [65, 66, 10, 99] (PyVal.int 1) (Or.inr rfl) rfl rfl rfl
  · exact h.2.2 ⟨true, 7, true, [RecvEvent.chunk [65], RecvEvent.chunk [66, 10, 99]]⟩
      [RecvEvent.chunk [65, 66, 10]] ⟨[], []⟩ [65, 66, 10, 99] [65, 66, 10]
      rfl rfl rfl

end GICS
